import Mathlib

/-!
Verification of the Crema compiler middle pipeline (type lattice, semantic
analyzer, IR emitter) against its natural-language specification.

The definitions below are a shallow embedding of the C++ sources:
  - src/types.cpp   (Type operators, getLargerType, setType)
  - src/semantics.cpp (SemanticContext, per-node semanticAnalysis, checkRecursion)
  - src/ast.cpp / parser grammar (literal typing, parse-time registration)
  - src/codegen.cpp (assignment / return / declaration lowering, convertToType)
Each definition carries a comment naming the C++ entity it transcribes.
-/

namespace Crema

/-- TypeCodes enumeration from types.h.  The revision matching types.cpp also
has a CHAR member (types.cpp switches on CHAR throughout). -/
inductive TypeCode where
  | INT
  | DOUBLE
  | STRING
  | VOID
  | BOOL
  | UINT
  | STRUCT
  | INVALID
  | CHAR
deriving DecidableEq, Repr

/-- The Type value class from types.h: a typecode, an is-list flag, an
is-struct flag, and (for StructType) the structure identifier.  The default
constructor Type() sets typecode INVALID and leaves isList uninitialized in
the C++ source; we model that value as false, and no settled claim depends
on it. -/
structure Ty where
  typecode : TypeCode
  isList : Bool
  isStruct : Bool
  sident : String
deriving DecidableEq, Repr

/-- Scalar type of a given kind (Type(int token) constructor, list = false). -/
def mkScalar (tc : TypeCode) : Ty := ⟨tc, false, false, ""⟩

def tInt : Ty := mkScalar .INT
def tUInt : Ty := mkScalar .UINT
def tDouble : Ty := mkScalar .DOUBLE
def tChar : Ty := mkScalar .CHAR
def tBool : Ty := mkScalar .BOOL
def tVoid : Ty := mkScalar .VOID
def tInvalid : Ty := mkScalar .INVALID
def tStringTC : Ty := mkScalar .STRING

/-- Type of a string literal: the parser runs Type(TTSTR), and setType maps
TTSTR to typecode CHAR with isList = true (types.cpp, setType). -/
def tStrLit : Ty := ⟨.CHAR, true, false, ""⟩

/-- List type of the same kind as a given type: the Type(Type and t, bool l)
constructor copies the typecode and sets isList to l. -/
def listOf (t : Ty) : Ty := ⟨t.typecode, true, false, ""⟩

/-- Scalar (element) type of a given type: Type(t, false). -/
def scalarOf (t : Ty) : Ty := ⟨t.typecode, false, false, ""⟩

/-- operator==(Type, Type) from types.cpp: equal typecode and equal isList
(the isStruct flag and the struct identifier are not compared). -/
def tyEq (t1 t2 : Ty) : Bool :=
  decide (t1.typecode = t2.typecode) && decide (t1.isList = t2.isList)

/-- operator!=(Type, Type) from types.cpp. -/
def tyNe (t1 t2 : Ty) : Bool := !(tyEq t1 t2)

/-- operator>(Type, Type) from types.cpp lines 49-88, transcribed clause by
clause, including the two anomalies present in the source: the third clause
tests t2 (not t1) for UINT and DOUBLE, so only INT > BOOL results from it,
and the fourth clause makes BOOL greater than DOUBLE, INT and UINT. -/
def tyGt (t1 t2 : Ty) : Bool :=
  if t1.isList ≠ t2.isList then false
  else if t1.typecode = .DOUBLE ∧ (t2.typecode = .INT ∨ t2.typecode = .UINT) then true
  else if t1.typecode = .INT ∧ t2.typecode = .CHAR then true
  else if (t1.typecode = .INT ∨ t2.typecode = .UINT ∨ t2.typecode = .DOUBLE)
          ∧ t2.typecode = .BOOL then true
  else if t1.typecode = .BOOL
          ∧ (t2.typecode = .DOUBLE ∨ t2.typecode = .INT ∨ t2.typecode = .UINT) then true
  else if t1.typecode = .STRING
          ∧ (t2.typecode = .UINT ∨ t2.typecode = .INT ∨ t2.typecode = .DOUBLE) then true
  else false

/-- operator>=(Type, Type) from types.cpp: equality or strictly greater. -/
def tyGe (t1 t2 : Ty) : Bool := tyEq t1 t2 || tyGt t1 t2

/-- operator<(Type, Type) from types.cpp line 100-103: the complement of
operator>=, not the converse of operator>. -/
def tyLt (t1 t2 : Ty) : Bool := !(tyGe t1 t2)

/-- operator<=(Type, Type) from types.cpp: equality or operator<. -/
def tyLe (t1 t2 : Ty) : Bool := tyEq t1 t2 || tyLt t1 t2

/-- Type::getLargerType from types.cpp: first operand on equality, otherwise
whichever is strictly greater, otherwise a default-constructed (Invalid)
type. -/
def getLargerType (t1 t2 : Ty) : Ty :=
  if tyEq t1 t2 then t1
  else if tyGt t1 t2 then t1
  else if tyGt t2 t1 then t2
  else tInvalid

/-- The strict promotion order exactly as section 4.1 of the specification
states it: defined only between types with the same is-list flag, and holding
for precisely the nine listed pairs.  This definition follows the words of
the specification and exists to be compared with the tyGt definition taken
from the source. -/
def specPromLt (s t : Ty) : Bool :=
  decide (s.isList = t.isList) &&
  ( (decide (s.typecode = .INT) && decide (t.typecode = .DOUBLE))
  || (decide (s.typecode = .UINT) && decide (t.typecode = .DOUBLE))
  || (decide (s.typecode = .CHAR) && decide (t.typecode = .INT))
  || (decide (s.typecode = .BOOL) && decide (t.typecode = .INT))
  || (decide (s.typecode = .BOOL) && decide (t.typecode = .UINT))
  || (decide (s.typecode = .BOOL) && decide (t.typecode = .DOUBLE))
  || (decide (s.typecode = .INT) && decide (t.typecode = .STRING))
  || (decide (s.typecode = .UINT) && decide (t.typecode = .STRING))
  || (decide (s.typecode = .DOUBLE) && decide (t.typecode = .STRING)) )

/-- The non-strict promotion order of the specification: equal or strictly
below. -/
def specPromLe (s t : Ty) : Bool := tyEq s t || specPromLt s t

/-- Binary operator tokens producible by the grammar (parser.y term and
expression rules). -/
inductive BinOp where
  | add | sub | mul | div | mod | band | bor
  | ceq | cneq | cgt | clt | cge | cle
deriving DecidableEq, Repr

/-- The comparison switch of NBinaryOperator::getType (semantics.cpp): the
listed tokens yield BOOL.  TAND and TOR fall to the default (upcast) case. -/
def isComparisonOp : BinOp → Bool
  | .ceq | .cneq | .cle | .clt | .cge | .cgt => true
  | _ => false

/-- A VariableList of parameter / member declarations: each entry is the
declared type and identifier of an NVariableDeclaration. -/
inductive ParamList where
  | nil
  | cons (ty : Ty) (id : String) (tl : ParamList)
deriving DecidableEq, Repr

mutual
/-- Expression nodes of the AST (ast.h), restricted to the shapes the parser
grammar can build.  Literal constructors record the type the parser assigns
to the node (numeric, value rules of parser.y). -/
inductive Expr where
  | intLit (v : Int)
  | doubleLit
  | stringLit (s : String)
  | boolLit (b : Bool)
  | listLit (elems : ExprList)
  | varAccess (id : String)
  | listAccess (id : String) (index : Expr)
  | structAccess (id : String) (member : String)
  | funcCall (id : String) (args : ExprList)
  | binOp (op : BinOp) (lhs : Expr) (rhs : Expr)
deriving Repr

inductive ExprList where
  | nil
  | cons (e : Expr) (tl : ExprList)
deriving Repr

/-- Statement nodes of the AST (ast.h).  The three if constructors mirror the
three NIfStatement constructors; variable declarations with and without an
initializer mirror the two NVariableDeclaration constructors used by the
grammar. -/
inductive Stmt where
  | varDecl (ty : Ty) (id : String)
  | varDeclInit (ty : Ty) (id : String) (init : Expr)
  | assign (id : String) (e : Expr)
  | listAssign (id : String) (index : Expr) (e : Expr)
  | structAssign (id : String) (member : String) (e : Expr)
  | ret (e : Expr)
  | ifThen (cond : Expr) (thenb : Block)
  | ifThenElse (cond : Expr) (thenb : Block) (elseb : Block)
  | ifThenElseIf (cond : Expr) (thenb : Block) (elseif : Stmt)
  | loop (list : String) (asVar : String) (body : Block)
  | funcDecl (ty : Ty) (id : String) (params : ParamList) (body : Block)
  | structDecl (id : String) (members : ParamList)
deriving Repr

inductive StmtList where
  | nil
  | cons (s : Stmt) (tl : StmtList)
deriving Repr

/-- An NBlock: a sequence of statements. -/
inductive Block where
  | mk (stmts : StmtList)
deriving Repr
end

/-- A variable binding as stored in a scope: registerVar stores the
NVariableDeclaration, of which the analyzer reads the identifier and the
declared type. -/
structure VarEntry where
  ident : String
  ty : Ty
deriving Repr

/-- A function declaration as stored in the global function table
(NFunctionDeclaration: return type, identifier, parameters, body). -/
structure FuncDecl where
  ty : Ty
  ident : String
  params : ParamList
  body : Block
deriving Repr

/-- A structure declaration as stored in the global structure table
(NStructureDeclaration: identifier and member list). -/
structure StructDecl where
  ident : String
  members : ParamList
deriving Repr

/-- The SemanticContext of semantics.h: a stack of variable scopes (head =
innermost), the parallel stack of expected return types, and the global
function and structure tables.  The C++ object additionally caches currScope,
which always indexes the innermost scope. -/
structure Ctx where
  vars : List (List VarEntry)
  currType : List Ty
  funcs : List FuncDecl
  structs : List StructDecl
deriving Repr

/-- SemanticContext::newScope: push an empty variable scope and the given
return type. -/
def newScope (ctx : Ctx) (t : Ty) : Ctx :=
  { ctx with vars := [] :: ctx.vars, currType := t :: ctx.currType }

/-- SemanticContext::delScope: pop the innermost scope and return type. -/
def delScope (ctx : Ctx) : Ctx :=
  { ctx with vars := ctx.vars.tail, currType := ctx.currType.tail }

/-- Search one scope front to back for an identifier (the inner loop of
SemanticContext::searchVars and the duplicate check of registerVar). -/
def findInScope (id : String) : List VarEntry → Option VarEntry
  | [] => none
  | v :: tl => if v.ident = id then some v else findInScope id tl

/-- SemanticContext::searchVars: walk the scopes innermost to outermost. -/
def searchVarsL (id : String) : List (List VarEntry) → Option VarEntry
  | [] => none
  | sc :: tl =>
    match findInScope id sc with
    | some v => some v
    | none => searchVarsL id tl

/-- SemanticContext::searchFuncs: linear search of the global function
table. -/
def searchFuncsL (id : String) : List FuncDecl → Option FuncDecl
  | [] => none
  | f :: tl => if f.ident = id then some f else searchFuncsL id tl

/-- SemanticContext::searchStructs: linear search of the global structure
table. -/
def searchStructsL (id : String) : List StructDecl → Option StructDecl
  | [] => none
  | s :: tl => if s.ident = id then some s else searchStructsL id tl

def Ctx.searchVars (ctx : Ctx) (id : String) : Option VarEntry :=
  searchVarsL id ctx.vars

def Ctx.searchFuncs (ctx : Ctx) (id : String) : Option FuncDecl :=
  searchFuncsL id ctx.funcs

def Ctx.searchStructs (ctx : Ctx) (id : String) : Option StructDecl :=
  searchStructsL id ctx.structs

/-- SemanticContext::registerVar: refuse an identifier that names a function
or that already occurs in the innermost scope; otherwise append the binding
to the innermost scope.  (The C++ code indexes vars[currScope]; the scope
stack is never empty when the analyzer calls this.) -/
def Ctx.registerVar (ctx : Ctx) (v : VarEntry) : Bool × Ctx :=
  if (ctx.searchFuncs v.ident).isSome then (false, ctx)
  else
    match ctx.vars with
    | [] => (false, ctx)
    | sc :: tl =>
      if (findInScope v.ident sc).isSome then (false, ctx)
      else (true, { ctx with vars := (sc ++ [v]) :: tl })

/-- SemanticContext::registerFunc: refuse an identifier that names a variable
or an already registered function; otherwise append to the function table. -/
def Ctx.registerFunc (ctx : Ctx) (f : FuncDecl) : Bool × Ctx :=
  if (ctx.searchVars f.ident).isSome then (false, ctx)
  else if (ctx.searchFuncs f.ident).isSome then (false, ctx)
  else (true, { ctx with funcs := ctx.funcs ++ [f] })

/-- SemanticContext::registerStruct: refuse a duplicate structure name;
otherwise append to the structure table. -/
def Ctx.registerStruct (ctx : Ctx) (s : StructDecl) : Bool × Ctx :=
  if (ctx.searchStructs s.ident).isSome then (false, ctx)
  else (true, { ctx with structs := ctx.structs ++ [s] })

/-- The loop in NFunctionDeclaration::semanticAnalysis registering each
parameter, and the loop in NStructureDeclaration::semanticAnalysis
registering each member: stop at the first failed registration. -/
def registerVarList (ctx : Ctx) : ParamList → Bool × Ctx
  | .nil => (true, ctx)
  | .cons ty id tl =>
    match ctx.registerVar ⟨id, ty⟩ with
    | (false, c) => (false, c)
    | (true, c) => registerVarList c tl

/-- The member-search loop of NStructureAccess::getType: return the declared
type of the named member, or a default-constructed (Invalid) type. -/
def findMemberTy (member : String) : ParamList → Ty
  | .nil => tInvalid
  | .cons ty id tl => if id = member then ty else findMemberTy member tl

/-- The member-search loop of NStructureAccess::semanticAnalysis. -/
def hasMember (member : String) : ParamList → Bool
  | .nil => false
  | .cons _ id tl => if id = member then true else hasMember member tl

def paramListLength : ParamList → Nat
  | .nil => 0
  | .cons _ _ tl => paramListLength tl + 1

def exprListLength : ExprList → Nat
  | .nil => 0
  | .cons _ tl => exprListLength tl + 1

mutual
/-- The getType(ctx) methods of the expression nodes (semantics.cpp and the
parser-assigned literal types).  Every node whose lookup fails yields a
default-constructed (Invalid) type, as in the source. -/
def getTypeE (ctx : Ctx) : Expr → Ty
  | .intLit _ => tInt
  | .doubleLit => tDouble
  | .stringLit _ => tStrLit
  | .boolLit _ => tBool
  | .listLit es =>
    -- NList::getType: head type, Type(head, true), then compare the rest.
    match es with
    | .nil => listOf tInvalid
    | .cons e tl =>
      let t := getTypeE ctx e
      if nlistTypesMatch ctx t tl then listOf t else tInvalid
  | .varAccess id =>
    match ctx.searchVars id with
    | some v => v.ty
    | none => tInvalid
  | .listAccess id _ =>
    -- NListAccess::getType: Type(var->type, false); the index is not used.
    match ctx.searchVars id with
    | some v => scalarOf v.ty
    | none => tInvalid
  | .structAccess id member =>
    -- NStructureAccess::getType.
    match ctx.searchVars id with
    | none => tInvalid
    | some v =>
      if !v.ty.isStruct then tInvalid
      else
        match ctx.searchStructs v.ty.sident with
        | none => tInvalid
        | some sd => findMemberTy member sd.members
  | .funcCall id _ =>
    -- NFunctionCall::getType: the declared return type; arguments ignored.
    match ctx.searchFuncs id with
    | some f => f.ty
    | none => tInvalid
  | .binOp op l r =>
    -- NBinaryOperator::getType.
    let t1 := getTypeE ctx l
    let t2 := getTypeE ctx r
    if isComparisonOp op then tBool
    else if !(tyGe t1 t2 || tyGe t2 t1) then tInvalid
    else if tyEq t1 t2 then t1
    else if tyGt t1 t2 then t1 else t2

/-- The comparison loop shared by NList::getType and
NList::semanticAnalysis: every remaining element type must equal the head
type under operator!=. -/
def nlistTypesMatch (ctx : Ctx) (t : Ty) : ExprList → Bool
  | .nil => true
  | .cons e tl =>
    if tyNe (getTypeE ctx e) t then false else nlistTypesMatch ctx t tl
end

/-- Diagnostics printed by the analyzer, one constructor per print site of
semantics.cpp. -/
inductive Diag where
  | binopMismatch
  | assignUndef (v : String)
  | assignMismatch (v : String)
  | warnUpcast (a b : Ty)
  | listDiffTypes
  | callUndef (f : String)
  | callBadArity (f : String)
  | callMismatch (f : String)
  | warnArgUpcast (f : String)
  | loopUndef (v : String)
  | loopNotList (v : String)
  | recursiveCall (f : String)
  | condNotBool
  | declUndefStruct (s : String)
  | declDup (v : String)
  | declMismatch (v : String)
  | dupStructMember (s : String)
  | structUndefVar (v : String)
  | structUndefStruct (s : String)
  | structNoMember (m : String) (v : String)
  | returnMismatch
deriving DecidableEq, Repr

/-- Warnings are the two upcast messages; everything else is an error. -/
def Diag.isWarning : Diag → Bool
  | .warnUpcast _ _ => true
  | .warnArgUpcast _ => true
  | _ => false

/-- The argument loop of NFunctionCall::semanticAnalysis: a strictly greater
argument type aborts with a mismatch error; a merely different argument type
emits an upcast warning and continues. -/
def checkCallArgs (ctx : Ctx) (fid : String) : ExprList → ParamList → Bool × List Diag
  | .nil, _ => (true, [])
  | .cons _ _, .nil => (true, [])
  | .cons a as, .cons pty _ ps =>
    if tyGt (getTypeE ctx a) pty then (false, [.callMismatch fid])
    else if tyNe (getTypeE ctx a) pty then
      let (b, ds) := checkCallArgs ctx fid as ps
      (b, .warnArgUpcast fid :: ds)
    else checkCallArgs ctx fid as ps

/-- The semanticAnalysis methods of the expression nodes.  None of them
recurses into sub-expression analysis in this revision: NBinaryOperator,
NList and NFunctionCall consult only getType of their children. -/
def analyzeE (ctx : Ctx) : Expr → Bool × List Diag
  | .binOp _ l r =>
    -- NBinaryOperator::semanticAnalysis.
    let t1 := getTypeE ctx l
    let t2 := getTypeE ctx r
    if !(tyGe t1 t2 || tyGe t2 t1) then (false, [.binopMismatch]) else (true, [])
  | .listLit .nil => (true, [])
  | .listLit (.cons e tl) =>
    -- NList::semanticAnalysis.
    if nlistTypesMatch ctx (getTypeE ctx e) tl then (true, [])
    else (false, [.listDiffTypes])
  | .varAccess id =>
    -- NVariableAccess::semanticAnalysis (silent on failure).
    ((ctx.searchVars id).isSome, [])
  | .listAccess id index =>
    -- NListAccess::semanticAnalysis (silent on failure).
    match ctx.searchVars id with
    | none => (false, [])
    | some v =>
      if !v.ty.isList then (false, [])
      else
        let t := getTypeE ctx index
        if t.typecode ≠ .INT ∧ t.typecode ≠ .UINT then (false, []) else (true, [])
  | .structAccess id member =>
    -- NStructureAccess::semanticAnalysis.  The C++ code casts var->type to
    -- StructType without checking isStruct; for a non-struct variable the
    -- identifier read is garbage, modelled here by the empty sident of
    -- non-struct types failing the structure lookup.
    match ctx.searchVars id with
    | none => (false, [.structUndefVar id])
    | some v =>
      match ctx.searchStructs v.ty.sident with
      | none => (false, [.structUndefStruct v.ty.sident])
      | some sd =>
        if hasMember member sd.members then (true, [])
        else (false, [.structNoMember member id])
  | .funcCall id args =>
    -- NFunctionCall::semanticAnalysis.
    match ctx.searchFuncs id with
    | none => (false, [.callUndef id])
    | some f =>
      if paramListLength f.params ≠ exprListLength args then
        (false, [.callBadArity id])
      else checkCallArgs ctx id args f.params
  | _ => (true, [])

mutual
/-- The checkRecursion methods (ast.h inline bodies, semantics.cpp for
NFunctionCall and NBlock), indexed by a step budget consumed one unit per
visited node.  The C++ walk carries no visited set, so it can fail to
terminate (and it dereferences a NULL body when the callee is undefined or
external); the result none models a walk that does not return normally
within the given budget, and a walk returning none for every budget is a
walk that never returns.  fname is the identifier of the enclosing
NFunctionDeclaration. -/
def checkRecE (fuel : Nat) (funcs : List FuncDecl) (fname : String) : Expr → Option Bool
  | .funcCall id _ =>
    -- NFunctionCall::checkRecursion: compare the callee name, then walk the
    -- callee body.  Arguments are not traversed.
    match fuel with
    | 0 => none
    | f + 1 =>
      if fname = id then some true
      else
        match searchFuncsL id funcs with
        | none => none
        | some d => checkRecB f funcs fname d.body
  | .binOp _ l r =>
    -- NBinaryOperator::checkRecursion: lhs short-circuits rhs.
    match fuel with
    | 0 => none
    | f + 1 =>
      match checkRecE f funcs fname l with
      | none => none
      | some true => some true
      | some false => checkRecE f funcs fname r
  | _ => some false

def checkRecS (fuel : Nat) (funcs : List FuncDecl) (fname : String) : Stmt → Option Bool
  | .assign _ e =>
    match fuel with
    | 0 => none
    | f + 1 => checkRecE f funcs fname e
  | .listAssign _ _ e =>
    match fuel with
    | 0 => none
    | f + 1 => checkRecE f funcs fname e
  | .structAssign _ _ e =>
    match fuel with
    | 0 => none
    | f + 1 => checkRecE f funcs fname e
  | .varDecl _ _ => some false
  | .varDeclInit _ _ e =>
    match fuel with
    | 0 => none
    | f + 1 => checkRecE f funcs fname e
  | .ret e =>
    match fuel with
    | 0 => none
    | f + 1 => checkRecE f funcs fname e
  | .ifThen _ thenb =>
    match fuel with
    | 0 => none
    | f + 1 => checkRecB f funcs fname thenb
  | .ifThenElse _ thenb elseb =>
    -- NIfStatement::checkRecursion: thenblock, then elseblock; the condition
    -- is not traversed.
    match fuel with
    | 0 => none
    | f + 1 =>
      match checkRecB f funcs fname thenb with
      | none => none
      | some true => some true
      | some false => checkRecB f funcs fname elseb
  | .ifThenElseIf _ thenb elseif =>
    match fuel with
    | 0 => none
    | f + 1 =>
      match checkRecB f funcs fname thenb with
      | none => none
      | some true => some true
      | some false => checkRecS f funcs fname elseif
  | .loop _ _ body =>
    match fuel with
    | 0 => none
    | f + 1 => checkRecB f funcs fname body
  | .funcDecl _ _ _ _ => some false
  | .structDecl _ _ => some false

def checkRecSL (fuel : Nat) (funcs : List FuncDecl) (fname : String) : StmtList → Option Bool
  | .nil => some false
  | .cons s tl =>
    match fuel with
    | 0 => none
    | f + 1 =>
      match checkRecS f funcs fname s with
      | none => none
      | some true => some true
      | some false => checkRecSL f funcs fname tl

/-- NBlock::checkRecursion: true as soon as one statement reports true. -/
def checkRecB (fuel : Nat) (funcs : List FuncDecl) (fname : String) : Block → Option Bool
  | .mk sl =>
    match fuel with
    | 0 => none
    | f + 1 => checkRecSL f funcs fname sl
end

/-- The condition test of NIfStatement::semanticAnalysis (semantics.cpp line
684): reject typecodes STRING, INVALID and VOID. -/
def condRejected (t : Ty) : Bool :=
  decide (t.typecode = .STRING) || decide (t.typecode = .INVALID)
    || decide (t.typecode = .VOID)

mutual
/-- The semanticAnalysis methods of the statement nodes (semantics.cpp),
threading the context and accumulating printed diagnostics in source order.
The step budget is consumed only by the recursion check inside
NFunctionDeclaration::semanticAnalysis; none models an analysis run that does
not return normally. -/
def analyzeS (fuel : Nat) (ctx : Ctx) : Stmt → Option (Bool × Ctx × List Diag)
  | .varDecl ty id =>
    -- NVariableDeclaration::semanticAnalysis, no initializer.
    if ty.isStruct ∧ (ctx.searchStructs ty.sident).isNone then
      some (false, ctx, [.declUndefStruct ty.sident])
    else
      match ctx.registerVar ⟨id, ty⟩ with
      | (false, c) => some (false, c, [.declDup id])
      | (true, c) => some (true, c, [])
  | .varDeclInit ty id init =>
    -- NVariableDeclaration::semanticAnalysis with an initializer: the
    -- mismatch test uses operator<, and the initializer expression is the
    -- only sub-expression whose own semanticAnalysis the analyzer runs.
    if ty.isStruct ∧ (ctx.searchStructs ty.sident).isNone then
      some (false, ctx, [.declUndefStruct ty.sident])
    else
      match ctx.registerVar ⟨id, ty⟩ with
      | (false, c) => some (false, c, [.declDup id])
      | (true, c) =>
        if tyLt ty (getTypeE c init) then some (false, c, [.declMismatch id])
        else
          let (b, ds) := analyzeE c init
          some (b, c, ds)
  | .assign id e =>
    -- NAssignmentStatement::semanticAnalysis: only the type of the
    -- right-hand side is consulted.
    match ctx.searchVars id with
    | none => some (false, ctx, [.assignUndef id])
    | some v =>
      let et := getTypeE ctx e
      if tyLt v.ty et then some (false, ctx, [.assignMismatch id])
      else if tyNe v.ty et then some (true, ctx, [.warnUpcast v.ty et])
      else some (true, ctx, [])
  | .listAssign id _ e =>
    -- NListAssignmentStatement::semanticAnalysis: the element type is
    -- Type(var->type, false); neither the list flag of the variable nor the
    -- index expression is checked.
    match ctx.searchVars id with
    | none => some (false, ctx, [.assignUndef id])
    | some v =>
      let t := scalarOf v.ty
      let et := getTypeE ctx e
      if tyLt t et then some (false, ctx, [.assignMismatch id])
      else if tyNe t et then some (true, ctx, [.warnUpcast t et])
      else some (true, ctx, [])
  | .structAssign id member e =>
    -- NStructureAssignmentStatement::semanticAnalysis.
    match ctx.searchVars id with
    | none => some (false, ctx, [.assignUndef id])
    | some v =>
      if !v.ty.isStruct then some (false, ctx, [])
      else
        let st := getTypeE ctx (.structAccess id member)
        let et := getTypeE ctx e
        if tyLt st et then some (false, ctx, [.assignMismatch id])
        else if tyNe st et then some (true, ctx, [.warnUpcast st et])
        else some (true, ctx, [])
  | .ret e =>
    -- NReturn::semanticAnalysis: compare against currType.back().
    let rt := getTypeE ctx e
    let ct := ctx.currType.headD tInvalid
    if tyGt rt ct then some (false, ctx, [.returnMismatch])
    else if tyNe rt ct then some (true, ctx, [.warnUpcast rt ct])
    else some (true, ctx, [])
  | .ifThen cond thenb =>
    -- NIfStatement::semanticAnalysis without else and elseif.
    if condRejected (getTypeE ctx cond) then some (false, ctx, [.condNotBool])
    else analyzeB fuel ctx thenb
  | .ifThenElse cond thenb elseb =>
    -- NIfStatement::semanticAnalysis: else block first, then the then
    -- block.
    if condRejected (getTypeE ctx cond) then some (false, ctx, [.condNotBool])
    else
      match analyzeB fuel ctx elseb with
      | none => none
      | some (false, c, ds) => some (false, c, ds)
      | some (true, c, ds) =>
        match analyzeB fuel c thenb with
        | none => none
        | some (b, c2, ds2) => some (b, c2, ds ++ ds2)
  | .ifThenElseIf cond thenb elseif =>
    -- NIfStatement::semanticAnalysis: elseif statement first, then the then
    -- block.
    if condRejected (getTypeE ctx cond) then some (false, ctx, [.condNotBool])
    else
      match analyzeS fuel ctx elseif with
      | none => none
      | some (false, c, ds) => some (false, c, ds)
      | some (true, c, ds) =>
        match analyzeB fuel c thenb with
        | none => none
        | some (b, c2, ds2) => some (b, c2, ds ++ ds2)
  | .loop listId asVar body =>
    -- NLoopStatement::semanticAnalysis: a fresh scope with the element type
    -- registered under the iteration name; the scope is always popped.
    match ctx.searchVars listId with
    | none => some (false, ctx, [.loopUndef listId])
    | some l =>
      if !l.ty.isList then some (false, ctx, [.loopNotList listId])
      else
        let c1 := newScope ctx (ctx.currType.headD tInvalid)
        let c2 := (c1.registerVar ⟨asVar, scalarOf l.ty⟩).2
        match analyzeB fuel c2 body with
        | none => none
        | some (b, c3, ds) => some (b, delScope c3, ds)
  | .funcDecl ty id params body =>
    -- NFunctionDeclaration::semanticAnalysis: new scope with the declared
    -- return type, parameters registered, body analyzed, recursion check run
    -- regardless of the body result, scope popped.
    let c1 := newScope ctx ty
    match registerVarList c1 params with
    | (false, c2) => some (false, delScope c2, [])
    | (true, c2) =>
      match analyzeB fuel c2 body with
      | none => none
      | some (bSA, c3, ds) =>
        match checkRecB fuel c3.funcs id body with
        | none => none
        | some bRec =>
          some (bSA && !bRec, delScope c3,
                ds ++ if bRec then [.recursiveCall id] else [])
  | .structDecl id members =>
    -- NStructureDeclaration::semanticAnalysis: a temporary scope for the
    -- member registrations, popped on both paths.
    let c1 := newScope ctx tInvalid
    match registerVarList c1 members with
    | (false, c2) => some (false, delScope c2, [.dupStructMember id])
    | (true, c2) => some (true, delScope c2, [])

def analyzeSL (fuel : Nat) (ctx : Ctx) : StmtList → Option (Bool × Ctx × List Diag)
  | .nil => some (true, ctx, [])
  | .cons s tl =>
    match analyzeS fuel ctx s with
    | none => none
    | some (false, c, ds) => some (false, c, ds)
    | some (true, c, ds) =>
      match analyzeSL fuel c tl with
      | none => none
      | some (b, c2, ds2) => some (b, c2, ds ++ ds2)

/-- NBlock::semanticAnalysis: push a scope inheriting currType.back(),
analyze the statements, and pop only when every statement succeeded — the
first failing statement returns false with the scope still pushed. -/
def analyzeB (fuel : Nat) (ctx : Ctx) : Block → Option (Bool × Ctx × List Diag)
  | .mk sl =>
    let c1 := newScope ctx (ctx.currType.headD tInvalid)
    match analyzeSL fuel c1 sl with
    | none => none
    | some (false, c2, ds) => some (false, c2, ds)
    | some (true, c2, ds) => some (true, delScope c2, ds)
end

mutual
/-- Parse-time registration: the statement production of parser.y calls
rootCtx.registerFunc on every func-decl reduction and rootCtx.registerStruct
on every struct-decl reduction, innermost reductions first.  Registration
failures make the parser exit; the registration result is dropped here and
the concrete programs below have no duplicate declarations. -/
def collectS (ctx : Ctx) : Stmt → Ctx
  | .funcDecl ty id params body =>
    let c := collectB ctx body
    (c.registerFunc ⟨ty, id, params, body⟩).2
  | .structDecl id members => (ctx.registerStruct ⟨id, members⟩).2
  | .ifThen _ thenb => collectB ctx thenb
  | .ifThenElse _ thenb elseb => collectB (collectB ctx elseb) thenb
  | .ifThenElseIf _ thenb elseif => collectB (collectS ctx elseif) thenb
  | .loop _ _ body => collectB ctx body
  | _ => ctx

def collectSL (ctx : Ctx) : StmtList → Ctx
  | .nil => ctx
  | .cons s tl => collectSL (collectS ctx s) tl

def collectB (ctx : Ctx) : Block → Ctx
  | .mk sl => collectSL ctx sl
end

/-- The SemanticContext constructor (semantics.cpp lines 20-27): one root
scope whose expected return type is a scalar INT. -/
def initialCtx : Ctx := ⟨[[]], [tInt], [], []⟩

/-- The compilation driver path for analysis (crema.cpp): parse-time
registration over the root block, then rootBlock->semanticAnalysis(rootCtx).
(createStdlib exists in ast.cpp but has no caller in this revision, so the
function table holds exactly the parsed declarations.) -/
def analyzeProgram (fuel : Nat) (sl : StmtList) : Option (Bool × Ctx × List Diag) :=
  analyzeB fuel (collectSL initialCtx sl) (.mk sl)

/-- Projection of an analysis run to its verdict and diagnostics. -/
def analysisResult (fuel : Nat) (sl : StmtList) : Option (Bool × List Diag) :=
  (analyzeProgram fuel sl).map fun r => (r.1, r.2.2)

/-- Projection of an analysis run to its verdict and final scope-stack
depth. -/
def analysisDepth (fuel : Nat) (sl : StmtList) : Option (Bool × Nat) :=
  (analyzeProgram fuel sl).map fun r => (r.1, r.2.1.vars.length)

/-!
A model of the IR emitter (codegen.cpp) for the lowering path the emitter
claims are about: top-level declarations, scalar assignment, variable access,
integer literals and return.  Emitted items are identified by their index in
the emission list; C++ global variables are given indices the same way so
stores and loads can refer to their slots.
-/

/-- LLVM types produced by Type::toLlvmType. -/
inductive IRType where
  | i64 | f64 | i1 | i8 | ptr | voidT
deriving DecidableEq, Repr

/-- Type::toLlvmType (types.cpp): lists map to a byte pointer; the default
switch case returns NULL, modelled as none. -/
def toLlvmType (t : Ty) : Option IRType :=
  if t.isList then some .ptr
  else
    match t.typecode with
    | .INT => some .i64
    | .DOUBLE => some .f64
    | .VOID => some .voidT
    | .BOOL => some .i1
    | .CHAR => some .i8
    | .STRING => some .ptr
    | _ => none

/-- The type slot of an expression node at emission time: the parser fills it
for literal values; nothing in this revision writes the slot of any other
node, so those nodes keep the default-constructed (Invalid) type. -/
def typeSlot : Expr → Ty
  | .intLit _ => tInt
  | .doubleLit => tDouble
  | .stringLit _ => tStrLit
  | .boolLit _ => tBool
  | _ => tInvalid

/-- Emitted items.  globalVar stands for a created llvm::GlobalVariable with
undef initializer; callRuntime for a CallInst to a named runtime function;
castError for the NULL result of CodeGenError. -/
inductive Instr where
  | globalVar (name : String) (t : Option IRType)
  | load (slot : Nat)
  | store (v : Nat) (slot : Nat)
  | sitofp (v : Nat)
  | constI64 (n : Int)
  | callSaveArgs
  | callRuntime (name : String)
  | retVal (v : Nat)
  | castError
deriving DecidableEq, Repr

/-- Emitter state: the emission list and the scope stack of
CodeGenContext::variables, each binding a name to its slot index and declared
type. -/
structure CG where
  instrs : List Instr
  scopes : List (List (String × Nat × Ty))
deriving Repr

def emit (cg : CG) (i : Instr) : CG × Nat :=
  ({ cg with instrs := cg.instrs ++ [i] }, cg.instrs.length)

/-- CodeGenContext::findVariable: innermost scope first; 0 stands for the
NULL result (never reached by the programs below). -/
def cgFindSlot (cg : CG) (id : String) : Nat :=
  let rec go : List (List (String × Nat × Ty)) → Nat
    | [] => 0
    | sc :: tl =>
      match sc.find? (fun p => p.1 = id) with
      | some p => p.2.1
      | none => go tl
  go cg.scopes

/-- CodeGenContext::addVariable: bind in the innermost scope. -/
def cgAddVar (cg : CG) (id : String) (slot : Nat) (t : Ty) : CG :=
  match cg.scopes with
  | [] => cg
  | sc :: tl => { cg with scopes := (sc ++ [(id, slot, t)]) :: tl }

/-- convertToType (codegen.cpp lines 118-130): identity when the slot type
equals the target, an SIToFPInst for INT to DOUBLE, and CodeGenError for
every other combination (the UINT to DOUBLE case is commented out in the
source).  Its only callers are binOpInstCreate and cmpOpInstCreate; the
assignment lowering never calls it. -/
def convertToType (cg : CG) (val : Nat) (slotTy target : Ty) : CG × Option Nat :=
  if tyEq slotTy target then (cg, some val)
  else if slotTy.typecode = .INT ∧ target.typecode = .DOUBLE then
    let (cg1, v) := emit cg (.sitofp val)
    (cg1, some v)
  else
    let (cg1, _) := emit cg .castError
    (cg1, none)

/-- Expression emission for the node kinds the claims exercise
(NInt::codeGen, NVariableAccess::codeGen).  Other expression kinds are not
reached by the concrete programs considered here and yield none. -/
def cgExpr (cg : CG) : Expr → CG × Option Nat
  | .intLit n =>
    let (cg1, v) := emit cg (.constI64 n)
    (cg1, some v)
  | .varAccess id =>
    -- NVariableAccess::codeGen: LoadInst from the resolved slot.
    let (cg1, v) := emit cg (.load (cgFindSlot cg id))
    (cg1, some v)
  | _ => (cg, none)

/-- NAssignmentStatement::codeGen (codegen.cpp lines 462-465): a StoreInst of
the raw right-hand-side value into the resolved slot.  No conversion is
emitted on this path. -/
def cgAssign (cg : CG) (id : String) (e : Expr) : CG :=
  match cgExpr cg e with
  | (cg1, some v) => (emit cg1 (.store v (cgFindSlot cg1 id))).1
  | (cg1, none) => cg1

/-- Statement emission for the top-level main function: variable declaration
(global branch of NVariableDeclaration::codeGen, including the runtime
constructor for uninitialized lists and the synthesized assignment for
initializers), assignment, and return (NReturn::codeGen, which compares the
LLVM type of the expression slot against the i64 return type of main and
inserts convertIToFP on any difference). -/
def cgStmt (cg : CG) : Stmt → CG
  | .varDecl ty id =>
    let (cg1, slot) := emit cg (.globalVar id (toLlvmType ty))
    let cg2 :=
      if ty.isList ∨ ty.typecode = .STRING then
        match ty.typecode with
        | .INT =>
          let (cg3, v) := emit cg1 (.callRuntime "int_list_create")
          (emit cg3 (.store v slot)).1
        | .STRING =>
          let (cg3, v) := emit cg1 (.callRuntime "str_create")
          (emit cg3 (.store v slot)).1
        | .CHAR =>
          let (cg3, v) := emit cg1 (.callRuntime "str_create")
          (emit cg3 (.store v slot)).1
        | _ => cg1
      else cg1
    cgAddVar cg2 id slot ty
  | .varDeclInit ty id init =>
    let (cg1, slot) := emit cg (.globalVar id (toLlvmType ty))
    let cg2 := cgAddVar cg1 id slot ty
    cgAssign cg2 id init
  | .assign id e => cgAssign cg id e
  | .ret e =>
    match cgExpr cg e with
    | (cg1, some v) =>
      if toLlvmType (typeSlot e) ≠ some .i64 then
        let (cg2, v2) := emit cg1 (.sitofp v)
        (emit cg2 (.retVal v2)).1
      else (emit cg1 (.retVal v)).1
    | (cg1, none) => cg1
  | _ => cg

def cgStmtList (cg : CG) : StmtList → CG
  | .nil => cg
  | .cons s tl => cgStmtList (cgStmt cg s) tl

/-- CodeGenContext::codeGen: main(i64, ptr) prologue calling save_args, the
root block statements, and a trailing return 0. -/
def cgProgram (sl : StmtList) : List Instr :=
  let cg0 : CG := ⟨[], [[]]⟩
  let (cg1, _) := emit cg0 .callSaveArgs
  let cg2 := cgStmtList cg1 sl
  let (cg3, z) := emit cg2 (.constI64 0)
  (emit cg3 (.retVal z)).1.instrs

/-- The element type of the global slot an emitted index denotes. -/
def slotElemType (l : List Instr) (n : Nat) : Option IRType :=
  match l.get? n with
  | some (.globalVar _ t) => t
  | _ => none

/-- The IR type of an emitted value. -/
def valIRType (l : List Instr) (n : Nat) : Option IRType :=
  match l.get? n with
  | some (.load slot) => slotElemType l slot
  | some (.constI64 _) => some .i64
  | some (.sitofp _) => some .f64
  | _ => none

def isSitofp : Instr → Bool
  | .sitofp _ => true
  | _ => false

/-!
Concrete programs used by the claims.
-/

/-- uint x  x = true -/
def progAssignBoolToUInt : StmtList :=
  .cons (.varDecl tUInt "x") (.cons (.assign "x" (.boolLit true)) .nil)

/-- bool y  y = 1 -/
def progAssignIntToBool : StmtList :=
  .cons (.varDecl tBool "y") (.cons (.assign "y" (.intLit 1)) .nil)

/-- if ("hi") with an empty then block -/
def progIfStringLit : StmtList :=
  .cons (.ifThen (.stringLit "hi") (.mk .nil)) .nil

/-- int x  x[1] = 3  (list-element assignment whose base is not a list) -/
def progListAssignScalarBase : StmtList :=
  .cons (.varDecl tInt "x") (.cons (.listAssign "x" (.intLit 1) (.intLit 3)) .nil)

/-- int[] xs  xs[2.5] = 3  (list-element assignment with a Double index) -/
def progListAssignDoubleIndex : StmtList :=
  .cons (.varDecl (listOf tInt) "xs")
    (.cons (.listAssign "xs" .doubleLit (.intLit 3)) .nil)

/-- int x  int x  (duplicate declaration, so analysis fails) -/
def progDupDecl : StmtList :=
  .cons (.varDecl tInt "x") (.cons (.varDecl tInt "x") .nil)

/-- int x  (a well-typed one-statement program) -/
def progOneDecl : StmtList := .cons (.varDecl tInt "x") .nil

/-- int a  double b = a  return b -/
def progUpcastAssign : StmtList :=
  .cons (.varDecl tInt "a")
    (.cons (.varDeclInit tDouble "b" (.varAccess "a"))
      (.cons (.ret (.varAccess "b")) .nil))

/-- def int f(int a) 'return 0'  int x  x = f()  (call with too few
arguments inside an assignment) -/
def progBadArityCall : StmtList :=
  .cons (.funcDecl tInt "f" (.cons tInt "a" .nil)
          (.mk (.cons (.ret (.intLit 0)) .nil)))
    (.cons (.varDecl tInt "x")
      (.cons (.assign "x" (.funcCall "f" .nil)) .nil))

/-- int[] xs = []  (declaration initialized with the empty list literal) -/
def progEmptyListInit : StmtList :=
  .cons (.varDeclInit (listOf tInt) "xs" (.listLit .nil)) .nil

/-- Bodies for the call cycle f calls g, g calls h, h calls g: the cycle does
not pass through f, so the recursion walk started for f revisits g and h
forever. -/
def fBody : Block := .mk (.cons (.ret (.funcCall "g" .nil)) .nil)

def gBody : Block := .mk (.cons (.ret (.funcCall "h" .nil)) .nil)

def hBody : Block := .mk (.cons (.ret (.funcCall "g" .nil)) .nil)

/-- The function table after parsing f, g, h. -/
def funcsCycle : List FuncDecl :=
  [⟨tInt, "f", .nil, fBody⟩, ⟨tInt, "g", .nil, gBody⟩, ⟨tInt, "h", .nil, hBody⟩]

/-- Body of def int f() 'return f()' (direct self-call). -/
def selfBody : Block := .mk (.cons (.ret (.funcCall "f" .nil)) .nil)

/-- The function table after parsing the self-recursive f. -/
def funcsSelf : List FuncDecl := [⟨tInt, "f", .nil, selfBody⟩]

/-!
Helper lemmas.
-/

theorem delScope_newScope (ctx : Ctx) (t : Ty) : delScope (newScope ctx t) = ctx := by
  cases ctx
  rfl

theorem registerVar_vars_length (ctx : Ctx) (v : VarEntry) :
    ((ctx.registerVar v).2).vars.length = ctx.vars.length := by
  unfold Ctx.registerVar
  split
  · rfl
  · split
    · rfl
    · rename_i sc tl heq
      split
      · rfl
      · simp [heq]

theorem registerVarList_vars_length (ps : ParamList) (ctx : Ctx) :
    ((registerVarList ctx ps).2).vars.length = ctx.vars.length := by
  induction ps generalizing ctx with
  | nil => rfl
  | cons ty id tl ih =>
    unfold registerVarList
    rcases hreg : ctx.registerVar ⟨id, ty⟩ with ⟨b, c⟩
    have hlen : c.vars.length = ctx.vars.length := by
      have := registerVar_vars_length ctx ⟨id, ty⟩
      rw [hreg] at this
      exact this
    cases b
    · simpa using hlen
    · simpa [ih c] using hlen

/-!
Claim theorems.
-/

/-- Claim C1: the specification states that the strict promotion order holds
for exactly nine pairs — among them Bool below Int, Bool below UInt and Bool
below Double — relates only types with equal is-list, and leaves every other
pair of distinct kinds incomparable.  The source operator does not realize
this order: Bool is strictly above Double, Int and UInt (an extra relation in
each case), while UInt and Double are not strictly above Bool (two of the
stated pairs fail); only Int above Bool survives of the Bool clauses.  This
theorem evaluates the transcribed operator at the diverging pairs next to the
stated order. -/
theorem claim1_promotion_order_divergence :
    specPromLt tBool tUInt = true ∧ tyGt tUInt tBool = false
  ∧ specPromLt tBool tDouble = true ∧ tyGt tDouble tBool = false
  ∧ specPromLt tDouble tBool = false ∧ tyGt tBool tDouble = true
  ∧ tyGt tBool tInt = true ∧ tyGt tBool tUInt = true
  ∧ tyGt tInt tBool = true := by
  refine ⟨rfl, rfl, rfl, rfl, rfl, rfl, rfl, rfl, rfl⟩

/-- Claim C2: the promotion relation of the source is reflexive, but it is
not antisymmetric: operator<= is derived from operator< which is the
complement of operator>=, so each of the two incomparable scalar types Char
and Double is less-or-equal the other while they are distinct. -/
theorem claim2_promotion_not_antisymmetric :
    (∀ t : Ty, tyLe t t = true)
  ∧ tyLe tChar tDouble = true ∧ tyLe tDouble tChar = true
  ∧ tyEq tChar tDouble = false ∧ tChar ≠ tDouble := by
  refine ⟨fun t => ?_, rfl, rfl, rfl, by decide⟩
  simp [tyLe, tyEq]

/-- Claim C3: the specification says a scalar assignment succeeds exactly
when the right-hand-side type is below-or-equal the declared type in the
stated promotion order.  The code instead accepts exactly when the declared
type is equal to or strictly greater (by the source operator) than the
right-hand-side type, which diverges on the Bool pairs: assigning a Bool
expression to a UInt variable is rejected although the stated order allows
it, and assigning an Int expression to a Bool variable is accepted with an
upcast warning although the stated order makes the pair incomparable. -/
theorem claim3_assignability_divergence :
    analysisResult 9 progAssignBoolToUInt = some (false, [.assignMismatch "x"])
  ∧ specPromLe tBool tUInt = true
  ∧ analysisResult 9 progAssignIntToBool = some (true, [.warnUpcast tBool tInt])
  ∧ specPromLe tInt tBool = false := by
  refine ⟨rfl, rfl, rfl, rfl⟩

/-- The recursion walk started for f on the g-h cycle alternates between the
bodies of g and h and never returns: for every step budget the result is
out of budget. -/
theorem checkRec_cycle_diverges (fuel : Nat) :
    checkRecB fuel funcsCycle "f" gBody = none
  ∧ checkRecB fuel funcsCycle "f" hBody = none := by
  induction fuel using Nat.strong_induction_on with
  | _ n ih =>
    match n with
    | 0 => exact ⟨rfl, rfl⟩
    | 1 => exact ⟨rfl, rfl⟩
    | 2 => exact ⟨rfl, rfl⟩
    | 3 => exact ⟨rfl, rfl⟩
    | j + 4 =>
      have hg := (ih j (by omega)).1
      have hh := (ih j (by omega)).2
      constructor
      · have hstep : checkRecB (j + 4) funcsCycle "f" gBody =
            (match checkRecB j funcsCycle "f" hBody with
             | none => none
             | some true => some true
             | some false => checkRecSL (j + 2) funcsCycle "f" .nil) := rfl
        rw [hstep, hh]
      · have hstep : checkRecB (j + 4) funcsCycle "f" hBody =
            (match checkRecB j funcsCycle "f" gBody with
             | none => none
             | some true => some true
             | some false => checkRecSL (j + 2) funcsCycle "f" .nil) := rfl
        rw [hstep, hg]

/-- Claim C4: the claim says the recursion check terminates on every program,
guarding against revisiting the same callee.  The source walk carries no such
guard: started from f whose body calls into the cycle g calls h calls g, the
walk returns no verdict for any step budget — the analyzer does not
terminate on that program, and in particular never reports anything for f.
The direct self-call, which the claim also describes, is detected. -/
theorem claim4_recursion_check_divergence :
    (∀ fuel : Nat, checkRecB fuel funcsCycle "f" fBody = none)
  ∧ checkRecB 9 funcsSelf "f" selfBody = some true := by
  constructor
  · intro fuel
    match fuel with
    | 0 => rfl
    | 1 => rfl
    | 2 => rfl
    | 3 => rfl
    | j + 4 =>
      have hg := (checkRec_cycle_diverges j).1
      have hstep : checkRecB (j + 4) funcsCycle "f" fBody =
          (match checkRecB j funcsCycle "f" gBody with
           | none => none
           | some true => some true
           | some false => checkRecSL (j + 2) funcsCycle "f" .nil) := rfl
      rw [hstep, hg]
  · rfl

/-- Claim C5 counterexample: the program if ("hi") with an empty block passes
semantic analysis with no diagnostic, because the string literal carries type
char-list rather than the STRING typecode the condition test looks for; the
claim says this program fails with the condition error. -/
theorem claim5_counterexample :
    analysisResult 9 progIfStringLit = some (true, []) := by
  rfl

/-- Claim C5 as amended: for every if statement with an empty then block, the
analyzer rejects with the condition diagnostic exactly when the typecode of
the condition type is STRING, INVALID or VOID (so Bool, Int, UInt, Double and
also Char and list-typed conditions are accepted); since no parser-producible
expression carries the STRING typecode — string literals have type char-list
— a program such as if ("hi") passes analysis. -/
theorem claim5_condition_rule (fuel : Nat) (ctx : Ctx) (c : Expr) :
    analyzeS fuel ctx (.ifThen c (.mk .nil)) =
      if condRejected (getTypeE ctx c) then some (false, ctx, [.condNotBool])
      else some (true, ctx, []) := by
  simp only [analyzeS]
  split
  · rfl
  · show analyzeB fuel ctx (.mk .nil) = some (true, ctx, [])
    simp only [analyzeB, analyzeSL, delScope_newScope]

/-- Claim C6: the claim says list-element assignment analysis requires the
assigned base variable to be list-typed and the index to have type Int or
UInt.  NListAssignmentStatement::semanticAnalysis checks neither: a
list-element assignment into a scalar Int variable and one indexed by a
Double literal both pass analysis with no diagnostic. -/
theorem claim6_list_assignment_unchecked :
    analysisResult 9 progListAssignScalarBase = some (true, [])
  ∧ analysisResult 9 progListAssignDoubleIndex = some (true, []) := by
  refine ⟨rfl, rfl⟩

/-- Claim C7 counterexample: a failing program leaves the scope stack above
its initial depth — the block scope pushed for the root block is not popped
when a statement fails — so pushes are not matched by pops on programs that
fail analysis.  The duplicate-declaration program starts at depth 1 and ends
at depth 2. -/
theorem claim7_counterexample :
    analysisDepth 9 progDupDecl = some (false, 2)
  ∧ initialCtx.vars.length = 1 := by
  refine ⟨rfl, rfl⟩

theorem delScope_vars_length (ctx : Ctx) :
    (delScope ctx).vars.length = ctx.vars.length - 1 := by
  simp [delScope]

theorem newScope_vars_length (ctx : Ctx) (t : Ty) :
    (newScope ctx t).vars.length = ctx.vars.length + 1 := by
  simp [newScope]

mutual
/-- A statement whose analysis returns true leaves the scope stack at the
depth it found it. -/
theorem analyzeS_depth_of_ok (fuel : Nat) (ctx : Ctx) (s : Stmt) (c2 : Ctx)
    (ds : List Diag) (h : analyzeS fuel ctx s = some (true, c2, ds)) :
    c2.vars.length = ctx.vars.length := by
  cases s with
  | varDecl ty id =>
    simp only [analyzeS] at h
    split at h
    · simp at h
    · rcases hreg : ctx.registerVar ⟨id, ty⟩ with ⟨b, c⟩
      rw [hreg] at h
      have hlen : c.vars.length = ctx.vars.length := by
        have := registerVar_vars_length ctx ⟨id, ty⟩
        rw [hreg] at this
        exact this
      cases b
      · simp at h
      · simp only [Option.some.injEq, Prod.mk.injEq] at h
        rw [← h.2.1]
        exact hlen
  | varDeclInit ty id init =>
    simp only [analyzeS] at h
    split at h
    · simp at h
    · rcases hreg : ctx.registerVar ⟨id, ty⟩ with ⟨b, c⟩
      rw [hreg] at h
      have hlen : c.vars.length = ctx.vars.length := by
        have := registerVar_vars_length ctx ⟨id, ty⟩
        rw [hreg] at this
        exact this
      cases b
      · simp at h
      · simp only at h
        split at h
        · simp at h
        · simp only [Option.some.injEq, Prod.mk.injEq] at h
          rw [← h.2.1]
          exact hlen
  | assign id e =>
    simp only [analyzeS] at h
    split at h
    · simp at h
    · split at h
      · simp at h
      · split at h <;> simp_all
  | listAssign id index e =>
    simp only [analyzeS] at h
    split at h
    · simp at h
    · split at h
      · simp at h
      · split at h <;> simp_all
  | structAssign id member e =>
    simp only [analyzeS] at h
    split at h
    · simp at h
    · split at h
      · simp at h
      · split at h
        · simp at h
        · split at h <;> simp_all
  | ret e =>
    simp only [analyzeS] at h
    split at h
    · simp at h
    · split at h <;> simp_all
  | ifThen cond thenb =>
    simp only [analyzeS] at h
    split at h
    · simp at h
    · exact analyzeB_depth_of_ok fuel ctx thenb c2 ds h
  | ifThenElse cond thenb elseb =>
    simp only [analyzeS] at h
    split at h
    · simp at h
    · split at h
      · simp at h
      · simp at h
      · rename_i c1 ds1 he
        split at h
        · simp at h
        · rename_i b2 c2' ds2 ht
          simp only [Option.some.injEq, Prod.mk.injEq] at h
          obtain ⟨hb, hc, -⟩ := h
          subst hb
          have h1 := analyzeB_depth_of_ok fuel ctx elseb c1 ds1 he
          have h2 := analyzeB_depth_of_ok fuel c1 thenb c2' ds2 ht
          rw [← hc]
          omega
  | ifThenElseIf cond thenb elseif =>
    simp only [analyzeS] at h
    split at h
    · simp at h
    · split at h
      · simp at h
      · simp at h
      · rename_i c1 ds1 he
        split at h
        · simp at h
        · rename_i b2 c2' ds2 ht
          simp only [Option.some.injEq, Prod.mk.injEq] at h
          obtain ⟨hb, hc, -⟩ := h
          subst hb
          have h1 := analyzeS_depth_of_ok fuel ctx elseif c1 ds1 he
          have h2 := analyzeB_depth_of_ok fuel c1 thenb c2' ds2 ht
          rw [← hc]
          omega
  | loop listId asVar body =>
    simp only [analyzeS] at h
    split at h
    · simp at h
    · split at h
      · simp at h
      · split at h
        · simp at h
        · rename_i b c3 ds3 hbody
          simp only [Option.some.injEq, Prod.mk.injEq] at h
          obtain ⟨hb, hc, -⟩ := h
          subst hb
          have h3 := analyzeB_depth_of_ok fuel
            ((newScope ctx (ctx.currType.headD tInvalid)).registerVar
              ⟨asVar, scalarOf _⟩).2 body c3 ds3 hbody
          rw [← hc]
          rw [delScope_vars_length]
          rw [h3]
          rw [registerVar_vars_length, newScope_vars_length]
          omega
  | funcDecl ty id params body =>
    simp only [analyzeS] at h
    split at h
    · simp at h
    · rename_i c2' hreg
      split at h
      · simp at h
      · rename_i bSA c3 ds3 hbody
        split at h
        · simp at h
        · rename_i bRec hrec
          simp only [Option.some.injEq, Prod.mk.injEq] at h
          obtain ⟨hb, hc, -⟩ := h
          have hbSA : bSA = true := by
            cases bSA
            · simp at hb
            · rfl
          subst hbSA
          have h3 := analyzeB_depth_of_ok fuel c2' body c3 ds3 hbody
          have hreglen : c2'.vars.length = (newScope ctx ty).vars.length := by
            have := registerVarList_vars_length params (newScope ctx ty)
            rw [hreg] at this
            exact this
          rw [← hc, delScope_vars_length, h3, hreglen, newScope_vars_length]
          omega
  | structDecl id members =>
    simp only [analyzeS] at h
    split at h
    · simp at h
    · rename_i c2' hreg
      simp only [Option.some.injEq, Prod.mk.injEq] at h
      obtain ⟨-, hc, -⟩ := h
      have hreglen : c2'.vars.length = (newScope ctx tInvalid).vars.length := by
        have := registerVarList_vars_length members (newScope ctx tInvalid)
        rw [hreg] at this
        exact this
      rw [← hc, delScope_vars_length, hreglen, newScope_vars_length]
      omega

/-- A statement list whose analysis returns true leaves the scope stack at
the depth it found it. -/
theorem analyzeSL_depth_of_ok (fuel : Nat) (ctx : Ctx) (sl : StmtList) (c2 : Ctx)
    (ds : List Diag) (h : analyzeSL fuel ctx sl = some (true, c2, ds)) :
    c2.vars.length = ctx.vars.length := by
  cases sl with
  | nil =>
    simp only [analyzeSL, Option.some.injEq, Prod.mk.injEq] at h
    rw [← h.2.1]
  | cons s tl =>
    simp only [analyzeSL] at h
    split at h
    · simp at h
    · simp at h
    · rename_i c1 ds1 hs
      split at h
      · simp at h
      · rename_i b2 c2' ds2 htl
        simp only [Option.some.injEq, Prod.mk.injEq] at h
        obtain ⟨hb, hc, -⟩ := h
        subst hb
        have h1 := analyzeS_depth_of_ok fuel ctx s c1 ds1 hs
        have h2 := analyzeSL_depth_of_ok fuel c1 tl c2' ds2 htl
        rw [← hc]
        omega

/-- A block whose analysis returns true leaves the scope stack at the depth
it found it. -/
theorem analyzeB_depth_of_ok (fuel : Nat) (ctx : Ctx) (b : Block) (c2 : Ctx)
    (ds : List Diag) (h : analyzeB fuel ctx b = some (true, c2, ds)) :
    c2.vars.length = ctx.vars.length := by
  cases b with
  | mk sl =>
    simp only [analyzeB] at h
    split at h
    · simp at h
    · simp at h
    · rename_i c2' ds' hsl
      simp only [Option.some.injEq, Prod.mk.injEq] at h
      obtain ⟨-, hc, -⟩ := h
      have h1 := analyzeSL_depth_of_ok fuel (newScope ctx (ctx.currType.headD tInvalid))
        sl c2' ds' hsl
      rw [← hc, delScope_vars_length, h1, newScope_vars_length]
      omega
end

/-- Claim C7 as amended: every block — in particular every whole program —
whose semantic analysis returns true ends with the scope stack at its
initial depth; the analyzer only fails to pop a pushed scope on the failing
paths, as the counterexample shows. -/
theorem claim7_balance_on_ok (fuel : Nat) (ctx : Ctx) (b : Block) (c2 : Ctx)
    (ds : List Diag) (h : analyzeB fuel ctx b = some (true, c2, ds)) :
    c2.vars.length = ctx.vars.length :=
  analyzeB_depth_of_ok fuel ctx b c2 ds h

/-- Claim C7 witness: the balance theorem applied to a concrete successful
analysis starting from the initial context. -/
theorem claim7_balance_witness :
    analyzeB 9 initialCtx (.mk progOneDecl) = some (true, initialCtx, [])
  ∧ initialCtx.vars.length = initialCtx.vars.length :=
  ⟨rfl, claim7_balance_on_ok 9 initialCtx (.mk progOneDecl) initialCtx [] rfl⟩

/-- Claim C8: the claim says the emitter inserts the implicit coercion when
the assignment target type is strictly greater, and that the program
int a, double b = a, return b compiles to a program returning 0.0.
NAssignmentStatement::codeGen emits a plain store of the raw right-hand-side
value: in the emitted list the store at index 4 stores the i64 load of a
directly into the f64 slot of b with no sitofp anywhere before it (the only
sitofp comes later, from the return lowering), so the module is ill-typed at
the store instead of returning 0.0. -/
theorem claim8_assignment_lowering_uncoerced :
    cgProgram progUpcastAssign =
      [.callSaveArgs, .globalVar "a" (some .i64), .globalVar "b" (some .f64),
       .load 1, .store 3 2, .load 2, .sitofp 5, .retVal 6, .constI64 0, .retVal 8]
  ∧ ((cgProgram progUpcastAssign).take 5).filter isSitofp = []
  ∧ valIRType (cgProgram progUpcastAssign) 3 = some .i64
  ∧ slotElemType (cgProgram progUpcastAssign) 2 = some .f64 := by
  refine ⟨rfl, rfl, rfl, rfl⟩

/-- Claim C9: scalar-assignment and return analysis consult only the type of
the inner expression — replacing the expression by any expression of the same
computed type leaves the analysis result unchanged — and a program assigning
a call with the wrong number of arguments (but compatible return type) to a
variable passes analysis with no diagnostic at all. -/
theorem claim9_statement_analysis_uses_type_only :
    (∀ (fuel : Nat) (ctx : Ctx) (id : String) (e e2 : Expr),
        getTypeE ctx e = getTypeE ctx e2 →
        analyzeS fuel ctx (.assign id e) = analyzeS fuel ctx (.assign id e2))
  ∧ (∀ (fuel : Nat) (ctx : Ctx) (e e2 : Expr),
        getTypeE ctx e = getTypeE ctx e2 →
        analyzeS fuel ctx (.ret e) = analyzeS fuel ctx (.ret e2))
  ∧ analysisResult 9 progBadArityCall = some (true, []) := by
  refine ⟨?_, ?_, rfl⟩
  · intro fuel ctx id e e2 hty
    simp only [analyzeS, hty]
  · intro fuel ctx e e2 hty
    simp only [analyzeS, hty]

/-- Claim C9 witness: the congruence applied at two distinct integer literals
of equal type. -/
theorem claim9_witness :
    analyzeS 1 initialCtx (.assign "x" (.intLit 0)) =
      analyzeS 1 initialCtx (.assign "x" (.intLit 1)) :=
  claim9_statement_analysis_uses_type_only.1 1 initialCtx "x" (.intLit 0) (.intLit 1) rfl

/-- Claim C10 counterexample: the claim says a declaration initialized with
the empty list literal passes analysis; in fact int-list xs = [] is rejected
with a type-mismatch diagnostic, because the declared list type is neither
equal to nor strictly greater than list-of-Invalid. -/
theorem claim10_counterexample :
    analysisResult 9 progEmptyListInit = some (false, [.declMismatch "xs"]) := by
  rfl

/-- Claim C10 as amended: the empty list literal itself analyzes successfully
and its computed type is a list whose element kind is Invalid, but a
declaration initialized with it is rejected by the operator< test of
NVariableDeclaration::semanticAnalysis. -/
theorem claim10_empty_list_rule :
    (∀ ctx : Ctx, getTypeE ctx (.listLit .nil) = listOf tInvalid)
  ∧ (∀ ctx : Ctx, analyzeE ctx (.listLit .nil) = (true, []))
  ∧ tyLt (listOf tInt) (listOf tInvalid) = true
  ∧ analysisResult 9 progEmptyListInit = some (false, [.declMismatch "xs"]) := by
  refine ⟨fun ctx => rfl, fun ctx => rfl, rfl, rfl⟩

end Crema
